import Mathlib

/-!
Verification of the archive/locator/router logic of `src/main.js`
(ipsWebTool, an Electron + WebSocket diagnostic-collection agent).

The JavaScript source is shallowly embedded:
* JS string primitives (`includes`, `endsWith`, `trim`, `split`) are modelled
  as executable functions on `List Char` / `String`;
* the filesystem is a record of two functions, directory listing
  (`fs.existsSync` plus `fs.readdirSync`) and file reading
  (`fs.readFileSync`, which may throw, hence `Except`);
* stateful callback code (`findInCommonDirs`) becomes an explicit state
  machine processed over the completion order of the concurrent `exec`
  probes;
* the WebSocket router (`handleWebSocketMessage`, `handleDeviceNameAction`)
  becomes a function from a decoded inbound message to the list of
  observable events it produces (replies to the originating peer, archive
  jobs dispatched, full-disk-scan invocations).
-/

namespace IdsWebTool

/-! ### JS string primitives -/

/-- Character-list prefix test, the recursion behind JS substring search. -/
def isPrefixOfChars : List Char → List Char → Bool
  | [], _ => true
  | _ :: _, [] => false
  | a :: as, b :: bs => a == b && isPrefixOfChars as bs

/-- Character-list contiguous-substring test. -/
def isSubstrChars (pat : List Char) : List Char → Bool
  | [] => pat.isEmpty
  | c :: rest => isPrefixOfChars pat (c :: rest) || isSubstrChars pat rest

/-- Models `s.includes(pat)` of JS: `pat` occurs as a literal substring of `s`
(the empty pattern always matches). -/
def jsIncludes (s pat : String) : Bool :=
  isSubstrChars pat.data s.data

/-- Models the `ToString` coercion JS applies to the argument of
`String.prototype.includes`: the value `null` coerces to the string
`"null"`; an actual string is unchanged.  In `addFilteredFilesToArchive`
the `deviceName` argument is `null` exactly for direct-path jobs. -/
def coerceNull : Option String → String
  | none => "null"
  | some s => s

/-- Character-list suffix test. -/
def isSuffixOfChars (pat s : List Char) : Bool :=
  isPrefixOfChars pat.reverse s.reverse

/-- Models `s.endsWith(pat)` of JS. -/
def jsEndsWith (s pat : String) : Bool :=
  isSuffixOfChars pat.data s.data

/-- Whitespace recognised by the model of `String.prototype.trim`
(the space, tab, newline and carriage-return characters, which cover every
string this program trims). -/
def isWsChar (c : Char) : Bool :=
  c == ' ' || c == '\t' || c == '\n' || c == '\r'

/-- Models `s.trim()` of JS: removes leading and trailing whitespace. -/
def jsTrim (s : String) : String :=
  String.mk (((s.data.dropWhile isWsChar).reverse.dropWhile isWsChar).reverse)

/-- Splits a character list at every occurrence of the separator character,
modelling `s.split(sep)` for a one-character separator. -/
def splitOnChar (c : Char) : List Char → List (List Char)
  | [] => [[]]
  | x :: xs =>
    if x = c then [] :: splitOnChar c xs
    else
      match splitOnChar c xs with
      | [] => [[x]]
      | h :: t => (x :: h) :: t

/-- Models `s.split("\n")[0]` of JS: the text before the first newline. -/
def firstLine (s : String) : String :=
  String.mk ((splitOnChar '\n' s.data).headD [])

/-- Splits a character list at every occurrence of the two-character
separator `"\r\n"`, modelling `s.split("\r\n")` of JS. -/
def splitOnCRLF : List Char → List (List Char)
  | [] => [[]]
  | '\r' :: '\n' :: xs => [] :: splitOnCRLF xs
  | x :: xs =>
    match splitOnCRLF xs with
    | [] => [[x]]
    | h :: t => (x :: h) :: t

/-! ### Windows path operations (Node `path` module, win32 flavour) -/

/-- Path separator test for win32 paths (Node accepts both separators). -/
def isSep (c : Char) : Bool :=
  c == '\\' || c == '/'

/-- Separator normalisation performed by `path.win32.join`: a forward slash
becomes a backslash, every other character is unchanged. -/
def normChar (c : Char) : Char :=
  if c = '/' then '\\' else c

/-- Models `path.join(a, b)` on win32 for arguments free of `.` and `..`
components and of redundant separators (the only arguments this program
builds): concatenate with a backslash and normalise separators. -/
def pathJoin (a b : String) : String :=
  String.mk ((a.data ++ '\\' :: b.data).map normChar)

/-- Models `path.dirname(p)` on win32 for a plain file path: the prefix
before the last separator (the bare separator when it is the first
character, `"."` when the path has no separator). -/
def dirname (p : String) : String :=
  match p.data.reverse.dropWhile (fun c => !(isSep c)) with
  | [] => "."
  | s :: rest =>
    match rest with
    | [] => String.mk [s]
    | _ :: _ => String.mk rest.reverse

/-! ### Filesystem abstraction

`listDir d` is `some files` when `fs.existsSync(d)` holds and
`fs.readdirSync(d)` returns `files` (the names directly inside `d`,
non-recursive), and `none` when the directory does not exist.
`readFile p` is the outcome of `fs.readFileSync(p, 'utf8')`: the file
content, or the message of the thrown I/O error. -/

structure Fsys where
  listDir : String → Option (List String)
  readFile : String → Except String String

/-! ### ArchiveBuilder: `createAndSendZip` / `addFilteredFilesToArchive` -/

/-- The per-file filter applied inside the `forEach` of
`addFilteredFilesToArchive`:

```
if (folder === 'temp'){ add }
else if ((folder === 'out' || folder === '_inputs_severin/tables')
         && file.includes(deviceName)){ add }
```

`deviceName` is the raw JS argument (`null` for direct-path jobs), so the
`includes` test sees it through the JS string coercion `coerceNull`. -/
def keepFile (folder : String) (deviceName : Option String) (file : String) : Bool :=
  if folder = "temp" then true
  else if (folder = "out" ∨ folder = "_inputs_severin/tables") ∧
          jsIncludes file (coerceNull deviceName) = true then true
  else false

/-- The `forEach` body of `addFilteredFilesToArchive` over the
extension-filtered listing: every file's content is read first
(`fs.readFileSync`, whose exception aborts the whole build), then the
filter policy decides whether the entry `path.join(folder, file)` is added
to the archive. -/
def addFilesGo (F : Fsys) (dirPath folder : String) (deviceName : Option String) :
    List String → Except String (List String)
  | [] => Except.ok []
  | f :: fs =>
    match F.readFile (pathJoin dirPath f) with
    | Except.error e => Except.error e
    | Except.ok _ =>
      match addFilesGo F dirPath folder deviceName fs with
      | Except.error e => Except.error e
      | Except.ok rest =>
        if keepFile folder deviceName f = true then
          Except.ok (pathJoin folder f :: rest)
        else
          Except.ok rest

/-- Models `addFilteredFilesToArchive(baseDir, folder, extension,
deviceName, archive)`: if `baseDir/folder` does not exist the rule is
skipped silently; otherwise the files directly inside it whose name ends
with `extension` are processed in listing order, and the archive entries
contributed by this rule are returned (an I/O error while reading any
processed file surfaces as `Except.error`). -/
def addFilteredFilesToArchive (F : Fsys) (baseDir folder extension : String)
    (deviceName : Option String) : Except String (List String) :=
  match F.listDir (pathJoin baseDir folder) with
  | none => Except.ok []
  | some files =>
    addFilesGo F (pathJoin baseDir folder) folder deviceName
      (files.filter (fun f => jsEndsWith f extension))

/-- The archive content assembled by `createAndSendZip`: the three static
rules `out/*.txt`, `_inputs_severin/tables/*.txt` and `temp/*.net`,
processed in that fixed order, with the first thrown error aborting the
build. -/
def buildZipEntries (F : Fsys) (baseDir : String) (deviceName : Option String) :
    Except String (List String) :=
  match addFilteredFilesToArchive F baseDir "out" ".txt" deviceName with
  | Except.error e => Except.error e
  | Except.ok a =>
    match addFilteredFilesToArchive F baseDir "_inputs_severin/tables" ".txt" deviceName with
    | Except.error e => Except.error e
    | Except.ok b =>
      match addFilteredFilesToArchive F baseDir "temp" ".net" deviceName with
      | Except.error e => Except.error e
      | Except.ok c => Except.ok (a ++ b ++ c)

/-- The result object of `createAndSendZip` (`{ success, message }`). -/
structure BuildResult where
  success : Bool
  message : String
deriving DecidableEq

/-- Models `createAndSendZip(baseDir, deviceName)`: on success the fixed
human-readable message, on any caught exception the error's message. -/
def createAndSendZip (F : Fsys) (baseDir : String) (deviceName : Option String) :
    BuildResult :=
  match buildZipEntries F baseDir deviceName with
  | Except.ok _ =>
    { success := true, message := "Filtered ZIP successfully created and sent." }
  | Except.error e => { success := false, message := e }

/-- Models the call `createAndSendZip(data.filePath, null)` when the
`filePath` field may be absent: JS then passes `undefined`, and
`path.join(undefined, 'filtered-archive.zip')` throws a `TypeError` that
the `try` block of `createAndSendZip` converts into an error result. -/
def createAndSendZipJS (F : Fsys) (baseDir : Option String) (deviceName : Option String) :
    BuildResult :=
  match baseDir with
  | none =>
    { success := false
      message := "The \"path\" argument must be of type string. Received undefined" }
  | some b => createAndSendZip F b deviceName

/-- The purely functional value of one archive rule when every read
succeeds: extension filter, then policy filter, then entry naming. -/
def pureRule (F : Fsys) (baseDir folder extension : String)
    (deviceName : Option String) : List String :=
  match F.listDir (pathJoin baseDir folder) with
  | none => []
  | some files =>
    ((files.filter (fun f => jsEndsWith f extension)).filter
        (fun f => keepFile folder deviceName f)).map (fun f => pathJoin folder f)

/-! ### DirectoryLocator: `findInCommonDirs` / `findFileOnDisk` -/

/-- Outcome of one `exec('where /r dir fileName')` probe: the error flag and
the raw stdout handed to its callback. -/
structure Probe where
  error : Bool
  stdout : String
deriving DecidableEq

/-- The reduction a probe callback applies to its outcome:

```
if (!error && stdout.trim()) {
  foundPath = path.dirname(stdout.split("\n")[0].trim());
}
```

yields `some` directory exactly when the probe succeeded with non-blank
output. -/
def probeDir (p : Probe) : Option String :=
  if p.error = false ∧ jsTrim p.stdout ≠ "" then
    some (dirname (jsTrim (firstLine p.stdout)))
  else none

/-- The mutable state shared by the probe callbacks of `findInCommonDirs`:
the overwritten `foundPath` slot and the completion counter `checked`. -/
structure LocState where
  foundPath : Option String
  checked : Nat
deriving DecidableEq

/-- One probe callback firing: `checked++` always, `foundPath` overwritten
whenever this probe matched. -/
def locStep (s : LocState) (p : Probe) : LocState :=
  { foundPath :=
      match probeDir p with
      | some d => some d
      | none => s.foundPath
    checked := s.checked + 1 }

/-- Runs the probe callbacks in completion order, recording every
`callback(foundPath)` invocation (fired exactly when `checked` reaches the
number of probed directories — the count-based join). -/
def locRun (total : Nat) : LocState → List (Option String) → List Probe →
    LocState × List (Option String)
  | st, calls, [] => (st, calls)
  | st, calls, p :: rest =>
    let st2 := locStep st p
    locRun total st2 (if st2.checked = total then calls ++ [st2.foundPath] else calls) rest

/-- Models `findInCommonDirs`: the argument is the list of probe outcomes in
completion order (one probe per known directory, all fired concurrently);
the result is the final shared state together with the list of callback
invocations. -/
def findInCommonDirs (order : List Probe) : LocState × List (Option String) :=
  locRun order.length { foundPath := none, checked := 0 } [] order

/-- Models `getCommonDirectories()` given the user's home directory. -/
def getCommonDirectories (userDir : String) : List String :=
  [pathJoin userDir "Desktop", pathJoin userDir "Downloads", pathJoin userDir "Documents",
   "C:\\Program Files", "C:\\Program Files (x86)", "C:\\"]

/-- Models `findFileOnDisk`'s reduction of the PowerShell full-disk scan:
on tool error `null`; otherwise the containing directory of the first
non-empty output line, if any. -/
def findFileOnDisk (error : Bool) (stdout : String) : Option String :=
  if error then none
  else
    match ((splitOnCRLF (jsTrim stdout).data).map String.mk).filter (fun s => !(s == "")) with
    | [] => none
    | f :: _ => some (dirname f)

/-! ### MessageRouter: `handleWebSocketMessage` / `handleDeviceNameAction` -/

/-- The decoded fields of an inbound JSON payload that the router inspects.
A field is `none` when absent from the payload (or `null`); payloads whose
inspected fields hold non-string JSON values are outside this embedding. -/
structure InData where
  type : Option String
  filePath : Option String
  action : Option String
  deviceName : Option String
deriving DecidableEq

/-- An inbound WebSocket frame: either text `JSON.parse` rejects (carrying
the parse error's message) or a parsed payload. -/
inductive Inbound where
  | malformed (errMessage : String)
  | parsed (data : InData)
deriving DecidableEq

/-- The structured messages the router sends to the originating peer. -/
inductive OutMsg where
  | status (success : Bool) (message : String)
  | fileFound (fileName directory : String)
  | fileNotFound (fileName : String)
deriving DecidableEq

/-- The observable effects of handling one inbound message, in program
order: a reply to the originating peer, an archive job dispatched
(`createAndSendZip` invoked with the given base directory and device
filter), or the full-disk fallback scan being launched. -/
inductive Event where
  | reply (msg : OutMsg)
  | buildJob (baseDir : Option String) (deviceFilter : Option String)
  | fullScan
deriving DecidableEq

/-- Recogniser for the fallback-scan event. -/
def isFullScan : Event → Bool
  | Event.fullScan => true
  | _ => false

/-- Recogniser for a `{type: 'success'|'error'}` status reply. -/
def isStatusReply : Event → Bool
  | Event.reply (OutMsg.status _ _) => true
  | _ => false

/-- The fixed artifact searched for by the device-name flow. -/
def asmpFileName : String := "ASMP start.bat"

/-- JS truthiness of an optional string field: absent (`undefined`/`null`)
and the empty string are falsy, every other string is truthy. -/
def truthyStr : Option String → Bool
  | none => false
  | some s => !(s == "")

/-- Models `handleDeviceNameAction(deviceName, ws)` given the locate
outcome `loc` delivered by `findInCommonDirs` and, when the fallback runs,
the outcome `scan` of `findFileOnDisk`.  The build is dispatched
fire-and-forget: its result object is discarded, so no status reply
depends on it. -/
def handleDeviceNameAction (deviceName : String) (loc scan : Option String) :
    List Event :=
  match loc with
  | some dir =>
    [Event.reply (OutMsg.fileFound asmpFileName dir),
     Event.buildJob (some dir) (some deviceName)]
  | none =>
    Event.fullScan ::
      match scan with
      | some p =>
        [Event.reply (OutMsg.fileFound asmpFileName p),
         Event.buildJob (some p) (some deviceName)]
      | none => [Event.reply (OutMsg.fileNotFound asmpFileName)]

/-- Models `handleWebSocketMessage(message, ws)`: a parse failure is caught
and answered with a single `{type:'error'}` reply; `data.type ===
'filePath'` dispatches an unfiltered build and replies with its result
status; `data.action === 'sendDeviceName' && data.deviceName` (JS
truthiness) dispatches the device-name flow; everything else falls through
with no effect. -/
def handleWebSocketMessage (F : Fsys) (loc scan : Option String) :
    Inbound → List Event
  | Inbound.malformed e => [Event.reply (OutMsg.status false e)]
  | Inbound.parsed d =>
    if d.type = some "filePath" then
      [Event.buildJob d.filePath none,
       Event.reply (OutMsg.status (createAndSendZipJS F d.filePath none).success
         (createAndSendZipJS F d.filePath none).message)]
    else if d.action = some "sendDeviceName" ∧ truthyStr d.deviceName = true then
      handleDeviceNameAction (d.deviceName.getD "") loc scan
    else []

/-! ### Message shapes of the external interface

Modelled from the spec: section 6 of the specification defines the two
inbound message shapes — the source only checks discriminator fields, so
these predicates exist to compare the spec's shape-based contract with the
router's actual dispatch. -/

/-- Modelled from the spec: the direct-path shape
`{ type: "filePath", filePath: string }`. -/
def specDirectShape (d : InData) : Prop :=
  d.type = some "filePath" ∧ ∃ p, d.filePath = some p

/-- Modelled from the spec: the device-request shape
`{ action: "sendDeviceName", deviceName: string }`. -/
def specDeviceShape (d : InData) : Prop :=
  d.action = some "sendDeviceName" ∧ ∃ s, d.deviceName = some s

/-- A file name free of path separators, as `fs.readdirSync` returns
(directory entries never contain a separator). -/
def noSepStr (f : String) : Prop :=
  ∀ c ∈ f.data, c ≠ '\\' ∧ c ≠ '/'

/-- The value the shared `foundPath` slot holds after a run of probe
callbacks starting from `acc`: the last match wins, matchless probes leave
the slot unchanged. -/
def lastMatchFrom (acc : Option String) : List Probe → Option String
  | [] => acc
  | p :: rest =>
    lastMatchFrom
      (match probeDir p with
       | some d => some d
       | none => acc) rest

/-! ### Concrete fixtures used by witnesses and counterexamples -/

/-- A healthy disk: `C:\d\out` holds two device-tagged report files,
`C:\d\temp` one `.net` file, the tables directory does not exist, and
every read succeeds. -/
def diskW : Fsys where
  listDir d :=
    if d = "C:\\d\\out" then some ["DEV1-a.txt", "DEV2-b.txt"]
    else if d = "C:\\d\\temp" then some ["x.net"]
    else none
  readFile _ := Except.ok ""

/-- A disk whose `out` directory holds a single plainly named `.txt` file
and nothing else exists; every read succeeds. -/
def diskPlain : Fsys where
  listDir d := if d = "C:\\base\\out" then some ["a.txt"] else none
  readFile _ := Except.ok ""

/-- A disk whose `out` directory holds one `.txt` file not tagged with any
device name, and on which every read throws. -/
def diskBroken : Fsys where
  listDir d := if d = "C:\\base\\out" then some ["OTHER.txt"] else none
  readFile _ := Except.error "EACCES: permission denied"

/-- A disk whose `out` directory holds one `.txt` file tagged with the
literal text `null` in its name; every read succeeds. -/
def diskNull : Fsys where
  listDir d := if d = "C:\\base\\out" then some ["null-x.txt"] else none
  readFile _ := Except.ok ""

instance (f : String) : Decidable (noSepStr f) :=
  inferInstanceAs (Decidable (∀ c ∈ f.data, c ≠ '\\' ∧ c ≠ '/'))

/-- A probe that matched under `C:\x`. -/
def probeA : Probe := { error := false, stdout := "C:\\x\\ASMP start.bat\n" }

/-- A probe that matched under `C:\y` (CRLF output of `where`). -/
def probeB : Probe := { error := false, stdout := "C:\\y\\ASMP start.bat\r\n" }

/-- A probe whose `exec` reported an error. -/
def probeErr : Probe := { error := true, stdout := "" }

/-- A probe that succeeded with blank output (no match). -/
def probeBlank : Probe := { error := false, stdout := "  \r\n" }

/-! ### Bridging lemmas: the executable JS string tests against the
mathematical prefix/suffix/infix relations -/

theorem isPrefixOfChars_iff : ∀ p s : List Char, isPrefixOfChars p s = true ↔ p <+: s
  | [], s => by simp [isPrefixOfChars]
  | a :: as, [] => by simp [isPrefixOfChars]
  | a :: as, b :: bs => by
    simp only [isPrefixOfChars, Bool.and_eq_true, beq_iff_eq, List.cons_prefix_cons]
    exact and_congr Iff.rfl (isPrefixOfChars_iff as bs)

theorem isSubstrChars_iff (p : List Char) : ∀ s : List Char, isSubstrChars p s = true ↔ p <:+: s
  | [] => by simp [isSubstrChars, List.infix_nil, List.isEmpty_iff]
  | c :: rest => by
    simp only [isSubstrChars, Bool.or_eq_true, List.infix_cons_iff]
    exact or_congr (isPrefixOfChars_iff p (c :: rest)) (isSubstrChars_iff p rest)

theorem jsIncludes_iff (s pat : String) : jsIncludes s pat = true ↔ pat.data <:+: s.data :=
  isSubstrChars_iff pat.data s.data

theorem jsEndsWith_iff (s pat : String) : jsEndsWith s pat = true ↔ pat.data <:+ s.data := by
  unfold jsEndsWith isSuffixOfChars
  rw [isPrefixOfChars_iff]
  exact List.reverse_prefix

/-- The empty device filter matches every file name, exactly as
`file.includes("")` does in JS. -/
theorem jsIncludes_empty (s : String) : jsIncludes s "" = true := by
  rw [jsIncludes_iff]
  exact List.nil_infix

/-! ### Archive-rule lemmas -/

theorem keepFile_temp (dev : Option String) (f : String) :
    keepFile "temp" dev f = true := by
  simp [keepFile]

theorem keepFile_out_iff (dev : Option String) (f : String) :
    keepFile "out" dev f = true ↔ jsIncludes f (coerceNull dev) = true := by
  unfold keepFile
  rw [if_neg (by decide : ¬ ("out" : String) = "temp")]
  cases hb : jsIncludes f (coerceNull dev) with
  | false => simp
  | true => simp

theorem keepFile_tables_iff (dev : Option String) (f : String) :
    keepFile "_inputs_severin/tables" dev f = true ↔
      jsIncludes f (coerceNull dev) = true := by
  unfold keepFile
  rw [if_neg (by decide : ¬ ("_inputs_severin/tables" : String) = "temp")]
  cases hb : jsIncludes f (coerceNull dev) with
  | false => simp
  | true => simp

/-- When the `forEach` over a listing finishes without throwing, the entries
it produced are exactly the policy-filtered files, named under the rule's
folder. -/
theorem addFilesGo_ok (F : Fsys) (dirPath folder : String) (dev : Option String) :
    ∀ fs l, addFilesGo F dirPath folder dev fs = Except.ok l →
      l = (fs.filter (fun f => keepFile folder dev f)).map (fun f => pathJoin folder f)
  | [], l, h => by
    simp only [addFilesGo] at h
    cases h
    simp
  | f :: fs, l, h => by
    cases hr : F.readFile (pathJoin dirPath f) with
    | error e =>
      simp only [addFilesGo, hr] at h
      exact Except.noConfusion h
    | ok c =>
      cases hg : addFilesGo F dirPath folder dev fs with
      | error e =>
        simp only [addFilesGo, hr, hg] at h
        exact Except.noConfusion h
      | ok rest =>
        simp only [addFilesGo, hr, hg] at h
        have hrest := addFilesGo_ok F dirPath folder dev fs rest hg
        by_cases hk : keepFile folder dev f = true
        · rw [if_pos hk] at h
          cases h
          simp [List.filter_cons, hk, hrest]
        · rw [if_neg hk] at h
          cases h
          have hk' : keepFile folder dev f = false := by
            cases hkb : keepFile folder dev f with
            | false => rfl
            | true => exact absurd hkb hk
          simp [List.filter_cons, hk', hrest]

/-- A rule that completes without throwing contributes exactly its pure
filtered value. -/
theorem addFilteredFilesToArchive_ok (F : Fsys) (baseDir folder extension : String)
    (dev : Option String) (l : List String)
    (h : addFilteredFilesToArchive F baseDir folder extension dev = Except.ok l) :
    l = pureRule F baseDir folder extension dev := by
  unfold addFilteredFilesToArchive at h
  unfold pureRule
  cases hd : F.listDir (pathJoin baseDir folder) with
  | none =>
    rw [hd] at h
    cases h
    rfl
  | some files =>
    rw [hd] at h
    exact addFilesGo_ok F (pathJoin baseDir folder) folder dev _ l h

/-- A build that completes without throwing produced exactly the three
rules' pure values, concatenated in rule order. -/
theorem buildZipEntries_ok (F : Fsys) (baseDir : String) (dev : Option String)
    (es : List String) (h : buildZipEntries F baseDir dev = Except.ok es) :
    es = pureRule F baseDir "out" ".txt" dev ++
         pureRule F baseDir "_inputs_severin/tables" ".txt" dev ++
         pureRule F baseDir "temp" ".net" dev := by
  unfold buildZipEntries at h
  cases h1 : addFilteredFilesToArchive F baseDir "out" ".txt" dev with
  | error e => rw [h1] at h; cases h
  | ok a =>
    rw [h1] at h
    cases h2 : addFilteredFilesToArchive F baseDir "_inputs_severin/tables" ".txt" dev with
    | error e => rw [h2] at h; cases h
    | ok b =>
      rw [h2] at h
      cases h3 : addFilteredFilesToArchive F baseDir "temp" ".net" dev with
      | error e => rw [h3] at h; cases h
      | ok c =>
        rw [h3] at h
        cases h
        rw [addFilteredFilesToArchive_ok F baseDir "out" ".txt" dev a h1,
            addFilteredFilesToArchive_ok F baseDir "_inputs_severin/tables" ".txt" dev b h2,
            addFilteredFilesToArchive_ok F baseDir "temp" ".net" dev c h3]

/-- Membership in one rule's pure value, unfolded to the existence of a
source file in the rule's directory. -/
theorem mem_pureRule (F : Fsys) (baseDir folder extension : String)
    (dev : Option String) (e : String) :
    e ∈ pureRule F baseDir folder extension dev ↔
      ∃ fs f, F.listDir (pathJoin baseDir folder) = some fs ∧ f ∈ fs ∧
        jsEndsWith f extension = true ∧ keepFile folder dev f = true ∧
        e = pathJoin folder f := by
  unfold pureRule
  cases hd : F.listDir (pathJoin baseDir folder) with
  | none =>
    simp only [List.not_mem_nil, false_iff]
    rintro ⟨fs, f, hfs, -⟩
    cases hfs
  | some files =>
    simp only [List.mem_map, List.mem_filter]
    constructor
    · rintro ⟨f, ⟨⟨hf, he⟩, hk⟩, rfl⟩
      exact ⟨files, f, rfl, hf, he, hk, rfl⟩
    · rintro ⟨fs, f, hfs, hf, he, hk, rfl⟩
      injection hfs with h3
      subst h3
      exact ⟨f, ⟨⟨hf, he⟩, hk⟩, rfl⟩

/-! ### Error propagation through the build -/

/-- The `forEach` throws whenever any file of the processed listing fails
to read — the read happens before the filter policy looks at the file. -/
theorem addFilesGo_error_of_read_error (F : Fsys) (dirPath folder : String)
    (dev : Option String) (e : String) :
    ∀ fs f, f ∈ fs → F.readFile (pathJoin dirPath f) = Except.error e →
      ∃ e', addFilesGo F dirPath folder dev fs = Except.error e'
  | [], f, hf, _ => absurd hf (List.not_mem_nil f)
  | g :: fs, f, hf, herr => by
    cases hr : F.readFile (pathJoin dirPath g) with
    | error e2 => exact ⟨e2, by simp only [addFilesGo, hr]⟩
    | ok c =>
      rcases List.mem_cons.mp hf with hfg | hftail
      · subst hfg
        rw [herr] at hr
        exact Except.noConfusion hr
      · obtain ⟨e', he'⟩ :=
          addFilesGo_error_of_read_error F dirPath folder dev e fs f hftail herr
        exact ⟨e', by simp only [addFilesGo, hr, he']⟩

/-- Whenever any of the three rules throws, the whole build surfaces an
error. -/
theorem buildZipEntries_error_of_rule_error (F : Fsys) (baseDir : String)
    (dev : Option String)
    (h : (∃ e, addFilteredFilesToArchive F baseDir "out" ".txt" dev = Except.error e) ∨
         (∃ e, addFilteredFilesToArchive F baseDir "_inputs_severin/tables" ".txt" dev =
            Except.error e) ∨
         (∃ e, addFilteredFilesToArchive F baseDir "temp" ".net" dev = Except.error e)) :
    ∃ e, buildZipEntries F baseDir dev = Except.error e := by
  unfold buildZipEntries
  cases h1 : addFilteredFilesToArchive F baseDir "out" ".txt" dev with
  | error e => exact ⟨e, rfl⟩
  | ok a =>
    rcases h with ⟨e, hA⟩ | h
    · rw [h1] at hA
      exact Except.noConfusion hA
    cases h2 : addFilteredFilesToArchive F baseDir "_inputs_severin/tables" ".txt" dev with
    | error e => exact ⟨e, rfl⟩
    | ok b =>
      rcases h with ⟨e, hB⟩ | h
      · rw [h2] at hB
        exact Except.noConfusion hB
      cases h3 : addFilteredFilesToArchive F baseDir "temp" ".net" dev with
      | error e => exact ⟨e, rfl⟩
      | ok c =>
        obtain ⟨e, hC⟩ := h
        rw [h3] at hC
        exact Except.noConfusion hC

/-- A build whose entry assembly throws reports failure. -/
theorem createAndSendZip_fails (F : Fsys) (baseDir : String) (dev : Option String)
    (h : ∃ e, buildZipEntries F baseDir dev = Except.error e) :
    (createAndSendZip F baseDir dev).success = false := by
  obtain ⟨e, he⟩ := h
  unfold createAndSendZip
  rw [he]

/-! ### Archive entry names: injectivity and namespace disjointness -/

theorem pathJoin_data (a b : String) :
    (pathJoin a b).data = (a.data ++ '\\' :: b.data).map normChar := rfl

theorem normChar_eq_self {c : Char} (h : c ≠ '/') : normChar c = c := by
  unfold normChar
  rw [if_neg h]

theorem map_normChar_of_noSep : ∀ l : List Char, (∀ c ∈ l, c ≠ '\\' ∧ c ≠ '/') →
    l.map normChar = l
  | [], _ => rfl
  | c :: l, h => by
    rw [List.map_cons, normChar_eq_self (h c (List.mem_cons_self c l)).2,
        map_normChar_of_noSep l (fun x hx => h x (List.mem_cons_of_mem c hx))]

theorem string_data_inj {s t : String} (h : s.data = t.data) : s = t := by
  cases s
  cases t
  exact congrArg String.mk h

/-- Within one rule, entry naming is injective on separator-free file
names. -/
theorem pathJoin_inj_of_noSep {folder f g : String} (hf : noSepStr f) (hg : noSepStr g)
    (h : pathJoin folder f = pathJoin folder g) : f = g := by
  have hd := congrArg String.data h
  rw [pathJoin_data, pathJoin_data, List.map_append, List.map_append,
      List.map_cons, List.map_cons, map_normChar_of_noSep f.data hf,
      map_normChar_of_noSep g.data hg] at hd
  have htail := List.append_cancel_left hd
  injection htail with _ htail2
  exact string_data_inj htail2

theorem pathJoin_out_head (f : String) :
    (pathJoin "out" f).data.head? = some 'o' := rfl

theorem pathJoin_tables_head (f : String) :
    (pathJoin "_inputs_severin/tables" f).data.head? = some '_' := rfl

theorem pathJoin_temp_head (f : String) :
    (pathJoin "temp" f).data.head? = some 't' := rfl

theorem pathJoin_out_ne_tables (f g : String) :
    pathJoin "out" f ≠ pathJoin "_inputs_severin/tables" g := by
  intro h
  have h2 : some 'o' = some '_' := by
    rw [← pathJoin_out_head f, ← pathJoin_tables_head g, h]
  injection h2 with h3
  exact absurd h3 (by decide)

theorem pathJoin_out_ne_temp (f g : String) :
    pathJoin "out" f ≠ pathJoin "temp" g := by
  intro h
  have h2 : some 'o' = some 't' := by
    rw [← pathJoin_out_head f, ← pathJoin_temp_head g, h]
  injection h2 with h3
  exact absurd h3 (by decide)

theorem pathJoin_tables_ne_temp (f g : String) :
    pathJoin "_inputs_severin/tables" f ≠ pathJoin "temp" g := by
  intro h
  have h2 : some '_' = some 't' := by
    rw [← pathJoin_tables_head f, ← pathJoin_temp_head g, h]
  injection h2 with h3
  exact absurd h3 (by decide)

/-- Every entry of a rule's pure value is named under the rule's folder. -/
theorem mem_pureRule_shape (F : Fsys) (baseDir folder extension : String)
    (dev : Option String) (e : String)
    (he : e ∈ pureRule F baseDir folder extension dev) :
    ∃ f, (∃ fs, F.listDir (pathJoin baseDir folder) = some fs ∧ f ∈ fs) ∧
      e = pathJoin folder f := by
  obtain ⟨fs, f, hfs, hf, -, -, rfl⟩ := (mem_pureRule F baseDir folder extension dev e).mp he
  exact ⟨f, ⟨fs, hfs, hf⟩, rfl⟩

/-- One rule's pure value contains no duplicate entry names, given a
well-formed listing. -/
theorem pureRule_nodup (F : Fsys) (baseDir folder extension : String)
    (dev : Option String)
    (h : ∀ fs, F.listDir (pathJoin baseDir folder) = some fs →
      fs.Nodup ∧ ∀ f ∈ fs, noSepStr f) :
    (pureRule F baseDir folder extension dev).Nodup := by
  unfold pureRule
  cases hd : F.listDir (pathJoin baseDir folder) with
  | none => exact List.nodup_nil
  | some files =>
    obtain ⟨hn, hs⟩ := h files hd
    refine List.Nodup.map_on ?_ ((hn.filter _).filter _)
    intro x hx y hy hxy
    exact pathJoin_inj_of_noSep
      (hs x (List.mem_of_mem_filter (List.mem_of_mem_filter hx)))
      (hs y (List.mem_of_mem_filter (List.mem_of_mem_filter hy))) hxy

/-! ### Locator state-machine lemmas -/

theorem locRun_fst_foundPath : ∀ (order : List Probe) (total : Nat) (st : LocState)
    (calls : List (Option String)),
    ((locRun total st calls order).1).foundPath = lastMatchFrom st.foundPath order
  | [], _, _, _ => rfl
  | p :: rest, total, st, calls => by
    simp only [locRun, lastMatchFrom]
    rw [locRun_fst_foundPath rest]
    rfl

theorem locRun_fst_checked : ∀ (order : List Probe) (total : Nat) (st : LocState)
    (calls : List (Option String)),
    ((locRun total st calls order).1).checked = st.checked + order.length
  | [], _, _, _ => by simp [locRun]
  | p :: rest, total, st, calls => by
    simp only [locRun]
    rw [locRun_fst_checked rest]
    simp [locStep]
    omega

theorem lastMatchFrom_append (l₁ l₂ : List Probe) :
    ∀ acc, lastMatchFrom acc (l₁ ++ l₂) = lastMatchFrom (lastMatchFrom acc l₁) l₂ := by
  induction l₁ with
  | nil => intro acc; rfl
  | cons p rest ih =>
    intro acc
    simp only [List.cons_append, lastMatchFrom]
    exact ih _

/-- The slot's final value is the reduction of whichever matching probe
came last in completion order (the starting value when no probe matched). -/
theorem lastMatchFrom_eq_getLast (l : List Probe) :
    ∀ acc, lastMatchFrom acc l =
      match (l.filter (fun q => (probeDir q).isSome)).getLast? with
      | some p => probeDir p
      | none => acc := by
  induction l using List.reverseRecOn with
  | nil => intro acc; rfl
  | append_singleton l p ih =>
    intro acc
    rw [lastMatchFrom_append]
    cases hp : probeDir p with
    | some d =>
      have hf : (l ++ [p]).filter (fun q => (probeDir q).isSome) =
          l.filter (fun q => (probeDir q).isSome) ++ [p] := by
        simp [List.filter_append, hp]
      rw [hf, List.getLast?_concat]
      simp only [lastMatchFrom, hp]
    | none =>
      have hf : (l ++ [p]).filter (fun q => (probeDir q).isSome) =
          l.filter (fun q => (probeDir q).isSome) := by
        simp [List.filter_append, hp]
      rw [hf]
      simp only [lastMatchFrom, hp]
      exact ih acc

/-- While strictly fewer probes have completed than were launched, the
aggregating callback has not fired. -/
theorem locRun_calls_lt : ∀ (order : List Probe) (total : Nat) (st : LocState)
    (calls : List (Option String)), st.checked + order.length < total →
    (locRun total st calls order).2 = calls
  | [], _, _, _, _ => rfl
  | p :: rest, total, st, calls, hlt => by
    simp only [locRun]
    have hc2 : (locStep st p).checked = st.checked + 1 := rfl
    have hne : ¬ (locStep st p).checked = total := by
      rw [hc2]
      simp only [List.length_cons] at hlt
      omega
    rw [if_neg hne]
    apply locRun_calls_lt rest
    rw [hc2]
    simp only [List.length_cons] at hlt
    omega

/-- When the run completes the launched count, the callback fires exactly
once, at the last completion, delivering the final slot value. -/
theorem locRun_calls_last : ∀ (order : List Probe) (total : Nat) (st : LocState)
    (calls : List (Option String)), order ≠ [] → st.checked + order.length = total →
    (locRun total st calls order).2 =
      calls ++ [((locRun total st calls order).1).foundPath]
  | [], _, _, _, hne, _ => absurd rfl hne
  | p :: rest, total, st, calls, _, htot => by
    cases rest with
    | nil =>
      have hc2 : (locStep st p).checked = total := by
        simp only [List.length_cons, List.length_nil] at htot
        have : (locStep st p).checked = st.checked + 1 := rfl
        omega
      simp only [locRun, if_pos hc2]
    | cons q rest' =>
      have hc2 : (locStep st p).checked = st.checked + 1 := rfl
      have hne2 : ¬ (locStep st p).checked = total := by
        simp only [List.length_cons] at htot
        omega
      simp only [locRun, if_neg hne2]
      exact locRun_calls_last (q :: rest') total (locStep st p) calls
        (List.cons_ne_nil q rest') (by simp only [List.length_cons] at htot ⊢; omega)

/-! ### Shared helper lemmas for the claims -/

/-- Membership in a completed build, characterised rule by rule in terms of
the JS filter primitives. -/
theorem mem_buildZipEntries (F : Fsys) (baseDir : String) (dev : Option String)
    (es : List String) (hok : buildZipEntries F baseDir dev = Except.ok es)
    (e : String) :
    e ∈ es ↔
      ((∃ fs f, F.listDir (pathJoin baseDir "out") = some fs ∧ f ∈ fs ∧
          jsEndsWith f ".txt" = true ∧ jsIncludes f (coerceNull dev) = true ∧
          e = pathJoin "out" f) ∨
       (∃ fs f, F.listDir (pathJoin baseDir "_inputs_severin/tables") = some fs ∧ f ∈ fs ∧
          jsEndsWith f ".txt" = true ∧ jsIncludes f (coerceNull dev) = true ∧
          e = pathJoin "_inputs_severin/tables" f) ∨
       (∃ fs f, F.listDir (pathJoin baseDir "temp") = some fs ∧ f ∈ fs ∧
          jsEndsWith f ".net" = true ∧ e = pathJoin "temp" f)) := by
  rw [buildZipEntries_ok F baseDir dev es hok]
  simp only [List.mem_append, or_assoc]
  apply or_congr
  · rw [mem_pureRule]
    apply exists_congr
    intro fs
    apply exists_congr
    intro f
    rw [keepFile_out_iff]
  apply or_congr
  · rw [mem_pureRule]
    apply exists_congr
    intro fs
    apply exists_congr
    intro f
    rw [keepFile_tables_iff]
  · rw [mem_pureRule]
    apply exists_congr
    intro fs
    apply exists_congr
    intro f
    simp only [keepFile_temp, eq_self_iff_true, true_and]

/-- A probe whose reduction matched yields the containing directory of the
trimmed first output line. -/
theorem probeDir_eq_of_isSome (p : Probe) (h : (probeDir p).isSome = true) :
    probeDir p = some (dirname (jsTrim (firstLine p.stdout))) := by
  by_cases hc : p.error = false ∧ jsTrim p.stdout ≠ ""
  · unfold probeDir
    rw [if_pos hc]
  · unfold probeDir at h
    rw [if_neg hc] at h
    exact Bool.noConfusion h

/-- The direct-path branch of the router: build first, then reply with the
build's result status. -/
theorem handleMessage_direct (F : Fsys) (loc scan : Option String) (d : InData)
    (p : String) (htype : d.type = some "filePath") (hpath : d.filePath = some p) :
    handleWebSocketMessage F loc scan (Inbound.parsed d) =
      [Event.buildJob (some p) none,
       Event.reply (OutMsg.status (createAndSendZip F p none).success
         (createAndSendZip F p none).message)] := by
  simp only [handleWebSocketMessage]
  rw [if_pos htype, hpath]
  rfl

/-- The device-name flow never emits a `{type: 'success'|'error'}` status
reply: the build result it produces is discarded. -/
theorem handleDeviceNameAction_no_status (dev : String) (loc scan : Option String) :
    ∀ ev ∈ handleDeviceNameAction dev loc scan, isStatusReply ev = false := by
  intro ev hev
  unfold handleDeviceNameAction at hev
  cases loc with
  | some dir =>
    rcases List.mem_cons.mp hev with rfl | hev2
    · rfl
    rcases List.mem_cons.mp hev2 with rfl | hev3
    · rfl
    exact absurd hev3 (List.not_mem_nil ev)
  | none =>
    rcases List.mem_cons.mp hev with rfl | hev2
    · rfl
    cases scan with
    | some q =>
      rcases List.mem_cons.mp hev2 with rfl | hev3
      · rfl
      rcases List.mem_cons.mp hev3 with rfl | hev4
      · rfl
      exact absurd hev4 (List.not_mem_nil ev)
    | none =>
      rcases List.mem_cons.mp hev2 with rfl | hev3
      · rfl
      exact absurd hev3 (List.not_mem_nil ev)

/-! ### The claims -/

/-- C1: for every device identifier `d` and every disk, an archive built by
a device-scoped job (`deviceFilter = d`, non-null) contains, under the
`out` and `_inputs_severin/tables` entry namespaces, exactly the `.txt`
files directly inside the corresponding sub-directories whose name
contains `d` as a literal substring, and excludes all other files; under
`temp` it contains every `.net` file regardless of `d`. -/
theorem c1_device_scoped_archive_exact (F : Fsys) (base d : String) (es : List String)
    (hok : buildZipEntries F base (some d) = Except.ok es) (e : String) :
    e ∈ es ↔
      ((∃ fs f, F.listDir (pathJoin base "out") = some fs ∧ f ∈ fs ∧
          ".txt".data <:+ f.data ∧ d.data <:+: f.data ∧ e = pathJoin "out" f) ∨
       (∃ fs f, F.listDir (pathJoin base "_inputs_severin/tables") = some fs ∧ f ∈ fs ∧
          ".txt".data <:+ f.data ∧ d.data <:+: f.data ∧
          e = pathJoin "_inputs_severin/tables" f) ∨
       (∃ fs f, F.listDir (pathJoin base "temp") = some fs ∧ f ∈ fs ∧
          ".net".data <:+ f.data ∧ e = pathJoin "temp" f)) := by
  rw [mem_buildZipEntries F base (some d) es hok e]
  simp only [coerceNull, jsIncludes_iff, jsEndsWith_iff]

/-- Witness for C1 on a concrete disk: `out/DEV1-a.txt` is archived by the
job scoped to device `DEV1`. -/
theorem c1_device_scoped_archive_exact_witness :
    pathJoin "out" "DEV1-a.txt" ∈ [pathJoin "out" "DEV1-a.txt", pathJoin "temp" "x.net"] :=
  (c1_device_scoped_archive_exact diskW "C:\\d" "DEV1"
      [pathJoin "out" "DEV1-a.txt", pathJoin "temp" "x.net"] rfl
      (pathJoin "out" "DEV1-a.txt")).mpr
    (Or.inl ⟨["DEV1-a.txt", "DEV2-b.txt"], "DEV1-a.txt", rfl, by decide, by decide,
             by decide, rfl⟩)

/-- Counterexample to C2 as stated: a direct-path message does run the job
with `deviceFilter = null`, but the mode is not an unfiltered passthrough —
on a disk whose `out` directory holds the extension-matching file `a.txt`,
the archive built for the direct-path request is empty. -/
theorem c2_counterexample :
    handleWebSocketMessage diskPlain none none
        (Inbound.parsed { type := some "filePath", filePath := some "C:\\base",
                          action := none, deviceName := none }) =
      [Event.buildJob (some "C:\\base") none,
       Event.reply (OutMsg.status true "Filtered ZIP successfully created and sent.")] ∧
    buildZipEntries diskPlain "C:\\base" none = Except.ok [] ∧
    diskPlain.listDir (pathJoin "C:\\base" "out") = some ["a.txt"] ∧
    jsEndsWith "a.txt" ".txt" = true := by
  exact ⟨rfl, rfl, rfl, rfl⟩

/-- C2 as amended: a direct-path message dispatches the archive job with
`deviceFilter = null`, and under that null filter the two device-filtered
rules include exactly those extension-matching files whose name contains
the literal text `null` (the JS coercion of the null filter), while
`temp` still contributes every `.net` file. -/
theorem c2_direct_path_null_filter (F : Fsys) (loc scan : Option String) (d : InData)
    (p : String) (es : List String)
    (htype : d.type = some "filePath") (hpath : d.filePath = some p)
    (hok : buildZipEntries F p none = Except.ok es) :
    handleWebSocketMessage F loc scan (Inbound.parsed d) =
      [Event.buildJob (some p) none,
       Event.reply (OutMsg.status (createAndSendZip F p none).success
         (createAndSendZip F p none).message)] ∧
    ∀ e, e ∈ es ↔
      ((∃ fs f, F.listDir (pathJoin p "out") = some fs ∧ f ∈ fs ∧
          ".txt".data <:+ f.data ∧ "null".data <:+: f.data ∧ e = pathJoin "out" f) ∨
       (∃ fs f, F.listDir (pathJoin p "_inputs_severin/tables") = some fs ∧ f ∈ fs ∧
          ".txt".data <:+ f.data ∧ "null".data <:+: f.data ∧
          e = pathJoin "_inputs_severin/tables" f) ∨
       (∃ fs f, F.listDir (pathJoin p "temp") = some fs ∧ f ∈ fs ∧
          ".net".data <:+ f.data ∧ e = pathJoin "temp" f)) := by
  refine ⟨handleMessage_direct F loc scan d p htype hpath, fun e => ?_⟩
  rw [mem_buildZipEntries F p none es hok e]
  simp only [coerceNull, jsIncludes_iff, jsEndsWith_iff]

/-- Witness for the amended C2: the direct-path request over a disk whose
`out` directory holds `null-x.txt` builds with the null filter and
archives exactly that file. -/
theorem c2_direct_path_null_filter_witness :
    handleWebSocketMessage diskNull none none
        (Inbound.parsed { type := some "filePath", filePath := some "C:\\base",
                          action := none, deviceName := none }) =
      [Event.buildJob (some "C:\\base") none,
       Event.reply (OutMsg.status true "Filtered ZIP successfully created and sent.")] ∧
    pathJoin "out" "null-x.txt" ∈ [pathJoin "out" "null-x.txt"] := by
  have h := c2_direct_path_null_filter diskNull none none
    { type := some "filePath", filePath := some "C:\\base", action := none, deviceName := none }
    "C:\\base" [pathJoin "out" "null-x.txt"] rfl rfl rfl
  exact ⟨h.1.trans rfl,
    (h.2 (pathJoin "out" "null-x.txt")).mpr
      (Or.inl ⟨["null-x.txt"], "null-x.txt", rfl, by decide, by decide, by decide, rfl⟩)⟩

/-- Counterexample to C3 as stated: with the empty-string device filter the
device-filtered `out` rule contributes an entry (JS `includes("")` is
always true), rather than zero entries — the single archive entry below
cannot come from `temp`, whose directory does not even exist. -/
theorem c3_counterexample :
    buildZipEntries diskPlain "C:\\base" (some "") = Except.ok [pathJoin "out" "a.txt"] ∧
    diskPlain.listDir (pathJoin "C:\\base" "temp") = none := by
  exact ⟨rfl, rfl⟩

/-- C3 as amended: under the null filter the device-filtered rules include
exactly the extension-matching files whose name contains the literal text
`null`; under the empty-string filter they include every extension-matching
file; in both cases `temp` contributes every `.net` file. -/
theorem c3_null_empty_filter (F : Fsys) (base : String) (es₀ es₁ : List String)
    (e : String) :
    (buildZipEntries F base none = Except.ok es₀ →
      (e ∈ es₀ ↔
        ((∃ fs f, F.listDir (pathJoin base "out") = some fs ∧ f ∈ fs ∧
            ".txt".data <:+ f.data ∧ "null".data <:+: f.data ∧ e = pathJoin "out" f) ∨
         (∃ fs f, F.listDir (pathJoin base "_inputs_severin/tables") = some fs ∧ f ∈ fs ∧
            ".txt".data <:+ f.data ∧ "null".data <:+: f.data ∧
            e = pathJoin "_inputs_severin/tables" f) ∨
         (∃ fs f, F.listDir (pathJoin base "temp") = some fs ∧ f ∈ fs ∧
            ".net".data <:+ f.data ∧ e = pathJoin "temp" f)))) ∧
    (buildZipEntries F base (some "") = Except.ok es₁ →
      (e ∈ es₁ ↔
        ((∃ fs f, F.listDir (pathJoin base "out") = some fs ∧ f ∈ fs ∧
            ".txt".data <:+ f.data ∧ e = pathJoin "out" f) ∨
         (∃ fs f, F.listDir (pathJoin base "_inputs_severin/tables") = some fs ∧ f ∈ fs ∧
            ".txt".data <:+ f.data ∧ e = pathJoin "_inputs_severin/tables" f) ∨
         (∃ fs f, F.listDir (pathJoin base "temp") = some fs ∧ f ∈ fs ∧
            ".net".data <:+ f.data ∧ e = pathJoin "temp" f)))) := by
  constructor
  · intro hok
    rw [mem_buildZipEntries F base none es₀ hok e]
    simp only [coerceNull, jsIncludes_iff, jsEndsWith_iff]
  · intro hok
    rw [mem_buildZipEntries F base (some "") es₁ hok e]
    simp only [coerceNull, jsIncludes_empty, jsEndsWith_iff, eq_self_iff_true, true_and]

/-- Witness for the amended C3: the empty-string filter archives the plain
`out/a.txt`, and the null filter archives `out/null-x.txt`. -/
theorem c3_null_empty_filter_witness :
    pathJoin "out" "a.txt" ∈ [pathJoin "out" "a.txt"] ∧
    pathJoin "out" "null-x.txt" ∈ [pathJoin "out" "null-x.txt"] := by
  constructor
  · exact ((c3_null_empty_filter diskPlain "C:\\base" [] [pathJoin "out" "a.txt"]
        (pathJoin "out" "a.txt")).2 rfl).mpr
      (Or.inl ⟨["a.txt"], "a.txt", rfl, by decide, by decide, rfl⟩)
  · exact ((c3_null_empty_filter diskNull "C:\\base" [pathJoin "out" "null-x.txt"] []
        (pathJoin "out" "null-x.txt")).1 rfl).mpr
      (Or.inl ⟨["null-x.txt"], "null-x.txt", rfl, by decide, by decide, by decide, rfl⟩)

/-- C4: for every completion order of the concurrent directory probes with
at least two matching probes, the final locate result is the containing
directory of the first output line of whichever matching probe completed
last, and the aggregate result is delivered to the caller exactly once,
only after all probes have completed (count-based join): no callback fires
while strictly fewer probes have completed than were launched. -/
theorem c4_last_match_wins (order : List Probe) (p : Probe)
    (htwo : 2 ≤ (order.filter (fun q => (probeDir q).isSome)).length)
    (hlast : (order.filter (fun q => (probeDir q).isSome)).getLast? = some p) :
    (findInCommonDirs order).1.foundPath = some (dirname (jsTrim (firstLine p.stdout))) ∧
    (findInCommonDirs order).2 = [some (dirname (jsTrim (firstLine p.stdout)))] ∧
    ∀ k, k < order.length →
      (locRun order.length { foundPath := none, checked := 0 } [] (order.take k)).2 = [] := by
  obtain ⟨hfne, heq⟩ := List.mem_getLast?_eq_getLast hlast
  have hpmem : p ∈ order.filter (fun q => (probeDir q).isSome) := by
    rw [heq]
    exact List.getLast_mem hfne
  have hpd : probeDir p = some (dirname (jsTrim (firstLine p.stdout))) :=
    probeDir_eq_of_isSome p (List.mem_filter.mp hpmem).2
  have hone : order ≠ [] := by
    intro h0
    rw [h0] at hfne
    exact hfne rfl
  have hfound : (findInCommonDirs order).1.foundPath =
      some (dirname (jsTrim (firstLine p.stdout))) := by
    unfold findInCommonDirs
    rw [locRun_fst_foundPath, lastMatchFrom_eq_getLast, hlast]
    exact hpd
  refine ⟨hfound, ?_, ?_⟩
  · unfold findInCommonDirs at hfound ⊢
    rw [locRun_calls_last order order.length _ _ hone (by simp), hfound]
    rfl
  · intro k hk
    apply locRun_calls_lt
    simp only [List.length_take]
    omega

/-- Witness for C4: with two matching probes completing in the order
`probeA` then (after an errored probe) `probeB`, the last match `probeB`
wins. -/
theorem c4_last_match_wins_witness :
    (findInCommonDirs [probeA, probeErr, probeB]).1.foundPath =
      some (dirname (jsTrim (firstLine probeB.stdout))) :=
  (c4_last_match_wins [probeA, probeErr, probeB] probeB (by decide) (by decide)).1

/-- C6: for every assignment of probe outcomes to the known directories and
every completion order of the probes — a permutation of those outcomes —
if exactly one probe matched, the locate result delivered is that probe's
directory regardless of completion order; and if no probe matched, the
locate result is `null` and the device-name flow invokes the full-disk
fallback scan exactly once. -/
theorem c6_single_match_or_fallback (outcomes order : List Probe)
    (hperm : outcomes.Perm order) :
    (∀ p, outcomes.filter (fun q => (probeDir q).isSome) = [p] →
      (findInCommonDirs order).1.foundPath = probeDir p ∧
      (findInCommonDirs order).2 = [probeDir p]) ∧
    (outcomes.filter (fun q => (probeDir q).isSome) = [] →
      (findInCommonDirs order).1.foundPath = none ∧
      ∀ dev scan,
        ((handleDeviceNameAction dev ((findInCommonDirs order).1.foundPath) scan).filter
            isFullScan).length = 1) := by
  constructor
  · intro p hone
    have hof : order.filter (fun q => (probeDir q).isSome) = [p] := by
      have hp := hperm.filter (fun q => (probeDir q).isSome)
      rw [hone] at hp
      exact List.perm_singleton.mp hp.symm
    have hone' : order ≠ [] := by
      intro h0
      rw [h0] at hof
      exact List.noConfusion hof
    have hfound : (findInCommonDirs order).1.foundPath = probeDir p := by
      unfold findInCommonDirs
      rw [locRun_fst_foundPath, lastMatchFrom_eq_getLast, hof]
      rfl
    refine ⟨hfound, ?_⟩
    unfold findInCommonDirs at hfound ⊢
    rw [locRun_calls_last order order.length _ _ hone' (by simp), hfound]
    rfl
  · intro hzero
    have hof : order.filter (fun q => (probeDir q).isSome) = [] := by
      have hp := hperm.filter (fun q => (probeDir q).isSome)
      rw [hzero] at hp
      exact List.perm_nil.mp hp.symm
    have hfound : (findInCommonDirs order).1.foundPath = none := by
      unfold findInCommonDirs
      rw [locRun_fst_foundPath, lastMatchFrom_eq_getLast, hof]
      rfl
    refine ⟨hfound, fun dev scan => ?_⟩
    rw [hfound]
    cases scan with
    | none => rfl
    | some q => rfl

/-- Witness for C6: the single matching probe `probeB` wins under a swapped
completion order, and a matchless outcome set triggers exactly one
fallback scan. -/
theorem c6_single_match_or_fallback_witness :
    (findInCommonDirs [probeErr, probeB]).1.foundPath = probeDir probeB ∧
    ((handleDeviceNameAction "DEV1" ((findInCommonDirs [probeBlank, probeErr]).1.foundPath)
        none).filter isFullScan).length = 1 :=
  ⟨((c6_single_match_or_fallback [probeB, probeErr] [probeErr, probeB]
      (by decide)).1 probeB (by decide)).1,
   ((c6_single_match_or_fallback [probeErr, probeBlank] [probeBlank, probeErr]
      (by decide)).2 (by decide)).2 "DEV1" none⟩

/-- C8: within one archive job, every entry written to the archive has a
unique archive-relative name (rule sub-directory joined with the file
name): given well-formed directory listings (no duplicate names, no
separators inside a name), the entry list of a completed build has no
duplicates. -/
theorem c8_unique_entry_names (F : Fsys) (base : String) (dev : Option String)
    (es : List String)
    (h1 : ∀ fs, F.listDir (pathJoin base "out") = some fs →
      fs.Nodup ∧ ∀ f ∈ fs, noSepStr f)
    (h2 : ∀ fs, F.listDir (pathJoin base "_inputs_severin/tables") = some fs →
      fs.Nodup ∧ ∀ f ∈ fs, noSepStr f)
    (h3 : ∀ fs, F.listDir (pathJoin base "temp") = some fs →
      fs.Nodup ∧ ∀ f ∈ fs, noSepStr f)
    (hok : buildZipEntries F base dev = Except.ok es) :
    es.Nodup := by
  rw [buildZipEntries_ok F base dev es hok]
  have n1 := pureRule_nodup F base "out" ".txt" dev h1
  have n2 := pureRule_nodup F base "_inputs_severin/tables" ".txt" dev h2
  have n3 := pureRule_nodup F base "temp" ".net" dev h3
  refine List.Nodup.append (List.Nodup.append n1 n2 ?_) n3 ?_
  · intro x hx1 hx2
    obtain ⟨f, -, rfl⟩ := mem_pureRule_shape F base "out" ".txt" dev x hx1
    obtain ⟨g, -, heq⟩ := mem_pureRule_shape F base "_inputs_severin/tables" ".txt" dev _ hx2
    exact pathJoin_out_ne_tables f g heq
  · intro x hx12 hx3
    obtain ⟨g, -, heq3⟩ := mem_pureRule_shape F base "temp" ".net" dev x hx3
    rcases List.mem_append.mp hx12 with hx1 | hx2
    · obtain ⟨f, -, rfl⟩ := mem_pureRule_shape F base "out" ".txt" dev x hx1
      exact pathJoin_out_ne_temp f g heq3
    · obtain ⟨f, -, rfl⟩ := mem_pureRule_shape F base "_inputs_severin/tables" ".txt" dev x hx2
      exact pathJoin_tables_ne_temp f g heq3

/-- Witness for C8 on a concrete disk with two rules contributing. -/
theorem c8_unique_entry_names_witness :
    List.Nodup [pathJoin "out" "DEV1-a.txt", pathJoin "temp" "x.net"] :=
  c8_unique_entry_names diskW "C:\\d" (some "DEV1")
    [pathJoin "out" "DEV1-a.txt", pathJoin "temp" "x.net"]
    (fun fs h => by
      rw [show diskW.listDir (pathJoin "C:\\d" "out") =
            some ["DEV1-a.txt", "DEV2-b.txt"] from rfl] at h
      injection h with h'
      subst h'
      exact ⟨by decide, by decide⟩)
    (fun fs h => by
      rw [show diskW.listDir (pathJoin "C:\\d" "_inputs_severin/tables") = none from rfl] at h
      cases h)
    (fun fs h => by
      rw [show diskW.listDir (pathJoin "C:\\d" "temp") = some ["x.net"] from rfl] at h
      injection h with h'
      subst h'
      exact ⟨by decide, by decide⟩)
    rfl

/-- C9: during a build, every extension-matching file in an existing rule
sub-directory is read before the filter policy is applied, so an I/O error
reading any such file — including one the device filter would exclude from
the archive — makes the entire build report failure. -/
theorem c9_read_error_fails_build (F : Fsys) (base : String) (dev : Option String)
    (folder extension : String) (fs : List String) (f e : String)
    (hrule : (folder, extension) ∈
      [("out", ".txt"), ("_inputs_severin/tables", ".txt"), ("temp", ".net")])
    (hdir : F.listDir (pathJoin base folder) = some fs)
    (hf : f ∈ fs) (hext : jsEndsWith f extension = true)
    (herr : F.readFile (pathJoin (pathJoin base folder) f) = Except.error e) :
    (createAndSendZip F base dev).success = false := by
  have hfail : ∃ e', addFilteredFilesToArchive F base folder extension dev =
      Except.error e' := by
    unfold addFilteredFilesToArchive
    rw [hdir]
    exact addFilesGo_error_of_read_error F (pathJoin base folder) folder dev e _ f
      (List.mem_filter.mpr ⟨hf, hext⟩) herr
  apply createAndSendZip_fails
  apply buildZipEntries_error_of_rule_error
  simp only [List.mem_cons, List.not_mem_nil, or_false, Prod.mk.injEq] at hrule
  rcases hrule with ⟨hf1, hf2⟩ | ⟨hf1, hf2⟩ | ⟨hf1, hf2⟩
  · subst hf1; subst hf2; exact Or.inl hfail
  · subst hf1; subst hf2; exact Or.inr (Or.inl hfail)
  · subst hf1; subst hf2; exact Or.inr (Or.inr hfail)

/-- Witness for C9: on a disk whose only file `out/OTHER.txt` is excluded
by the `DEV1` filter and fails to read, the build still reports failure. -/
theorem c9_read_error_fails_build_witness :
    (createAndSendZip diskBroken "C:\\base" (some "DEV1")).success = false ∧
    jsIncludes "OTHER.txt" "DEV1" = false :=
  ⟨c9_read_error_fails_build diskBroken "C:\\base" (some "DEV1") "out" ".txt"
      ["OTHER.txt"] "OTHER.txt" "EACCES: permission denied"
      (by decide) rfl (by decide) (by decide) rfl,
   by decide⟩

/-- Counterexample to C5 as stated: a device-name request whose archive
build fails produces no status reply at all — the originating peer gets
only `fileFound` and never learns the build outcome. -/
theorem c5_counterexample :
    handleWebSocketMessage diskBroken (some "C:\\base") none
        (Inbound.parsed { type := none, filePath := none,
                          action := some "sendDeviceName", deviceName := some "DEV1" }) =
      [Event.reply (OutMsg.fileFound asmpFileName "C:\\base"),
       Event.buildJob (some "C:\\base") (some "DEV1")] ∧
    (createAndSendZip diskBroken "C:\\base" (some "DEV1")).success = false ∧
    ∀ ev ∈ handleWebSocketMessage diskBroken (some "C:\\base") none
        (Inbound.parsed { type := none, filePath := none,
                          action := some "sendDeviceName", deviceName := some "DEV1" }),
      isStatusReply ev = false := by
  exact ⟨rfl, rfl, by decide⟩

/-- C5 as amended: only direct-path requests receive a build-outcome status
reply — after a direct-path build the originating peer gets a
success/error status carrying the build result, while every other request,
including the device-name flow, never receives any status reply (the
device-name flow discards the build result). -/
theorem c5_status_reply_only_direct (F : Fsys) (loc scan : Option String) (d : InData) :
    (∀ p, d.type = some "filePath" → d.filePath = some p →
      handleWebSocketMessage F loc scan (Inbound.parsed d) =
        [Event.buildJob (some p) none,
         Event.reply (OutMsg.status (createAndSendZip F p none).success
           (createAndSendZip F p none).message)]) ∧
    (d.type ≠ some "filePath" →
      ∀ ev ∈ handleWebSocketMessage F loc scan (Inbound.parsed d),
        isStatusReply ev = false) := by
  constructor
  · intro p htype hpath
    exact handleMessage_direct F loc scan d p htype hpath
  · intro htype
    simp only [handleWebSocketMessage]
    rw [if_neg htype]
    by_cases hc : d.action = some "sendDeviceName" ∧ truthyStr d.deviceName = true
    · rw [if_pos hc]
      exact handleDeviceNameAction_no_status (d.deviceName.getD "") loc scan
    · rw [if_neg hc]
      intro ev hev
      exact absurd hev (List.not_mem_nil ev)

/-- Witness for the amended C5: a direct-path request is answered with its
build status, a device-name request receives no status reply. -/
theorem c5_status_reply_only_direct_witness :
    handleWebSocketMessage diskPlain none none
        (Inbound.parsed { type := some "filePath", filePath := some "C:\\base",
                          action := none, deviceName := none }) =
      [Event.buildJob (some "C:\\base") none,
       Event.reply (OutMsg.status (createAndSendZip diskPlain "C:\\base" none).success
         (createAndSendZip diskPlain "C:\\base" none).message)] ∧
    ∀ ev ∈ handleWebSocketMessage diskBroken (some "C:\\d") none
        (Inbound.parsed { type := none, filePath := none,
                          action := some "sendDeviceName", deviceName := some "DEV2" }),
      isStatusReply ev = false :=
  ⟨(c5_status_reply_only_direct diskPlain none none
      { type := some "filePath", filePath := some "C:\\base",
        action := none, deviceName := none }).1 "C:\\base" rfl rfl,
   (c5_status_reply_only_direct diskBroken (some "C:\\d") none
      { type := none, filePath := none,
        action := some "sendDeviceName", deviceName := some "DEV2" }).2 (by decide)⟩

/-- Counterexample to C7 as stated: the parseable payload
`{type: 'filePath'}` without a `filePath` field matches neither the
direct-path shape (no path) nor the device-name shape, yet it is not
silently ignored — the router dispatches it as a direct-path request and
replies with an error status. -/
theorem c7_counterexample :
    handleWebSocketMessage diskPlain none none
        (Inbound.parsed { type := some "filePath", filePath := none,
                          action := none, deviceName := none }) =
      [Event.buildJob none none,
       Event.reply (OutMsg.status false
         "The \"path\" argument must be of type string. Received undefined")] ∧
    ¬ specDirectShape { type := some "filePath", filePath := none,
                        action := none, deviceName := none } ∧
    ¬ specDeviceShape { type := some "filePath", filePath := none,
                        action := none, deviceName := none } := by
  refine ⟨rfl, ?_, ?_⟩
  · rintro ⟨-, p, hp⟩
    cases hp
  · rintro ⟨ha, -⟩
    cases ha

/-- C7 as amended: a malformed inbound message produces exactly one error
reply and nothing else; parseable payloads are dispatched on discriminator
fields alone, so exactly those payloads whose `type` is not `'filePath'`
and that do not carry `action = 'sendDeviceName'` with a truthy
`deviceName` are silently ignored (in particular, `{type: 'filePath'}`
without a path is dispatched as direct-path and answered with an error
status, not ignored). -/
theorem c7_decode_error_and_ignore (F : Fsys) (loc scan : Option String)
    (e : String) (d : InData) :
    handleWebSocketMessage F loc scan (Inbound.malformed e) =
      [Event.reply (OutMsg.status false e)] ∧
    (d.type ≠ some "filePath" →
      ¬ (d.action = some "sendDeviceName" ∧ truthyStr d.deviceName = true) →
      handleWebSocketMessage F loc scan (Inbound.parsed d) = []) := by
  refine ⟨rfl, fun htype hcond => ?_⟩
  simp only [handleWebSocketMessage]
  rw [if_neg htype, if_neg hcond]

/-- Witness for the amended C7: a malformed frame gets exactly its one
error reply, and a payload with an unknown `type` is dropped silently. -/
theorem c7_decode_error_and_ignore_witness :
    handleWebSocketMessage diskPlain none none
        (Inbound.malformed "Unexpected token o in JSON at position 1") =
      [Event.reply (OutMsg.status false "Unexpected token o in JSON at position 1")] ∧
    handleWebSocketMessage diskPlain none none
        (Inbound.parsed { type := some "other", filePath := none,
                          action := none, deviceName := none }) = [] :=
  ⟨(c7_decode_error_and_ignore diskPlain none none
      "Unexpected token o in JSON at position 1"
      { type := some "other", filePath := none, action := none, deviceName := none }).1,
   (c7_decode_error_and_ignore diskPlain none none
      "Unexpected token o in JSON at position 1"
      { type := some "other", filePath := none, action := none, deviceName := none }).2
     (by decide) (by decide)⟩

/-- C10: a device-request payload (`action = 'sendDeviceName'`, no `type`
field) whose `deviceName` is absent, null, or the empty string is treated
as unrecognized: it is silently dropped with no reply, no locate, and no
archive build, so an empty device identifier never reaches the archive
builder through the device-request interface. -/
theorem c10_empty_device_dropped (F : Fsys) (loc scan : Option String) (d : InData)
    (htype : d.type = none) (haction : d.action = some "sendDeviceName")
    (hdev : d.deviceName = none ∨ d.deviceName = some "") :
    handleWebSocketMessage F loc scan (Inbound.parsed d) = [] := by
  simp only [handleWebSocketMessage]
  rw [if_neg (by rw [htype]; exact fun h => Option.noConfusion h)]
  rw [if_neg ?_]
  rintro ⟨-, ht⟩
  rcases hdev with h | h <;> rw [h] at ht
  · exact Bool.noConfusion ht
  · exact absurd ht (by decide)

/-- Witness for C10: the empty-string device name is dropped silently. -/
theorem c10_empty_device_dropped_witness :
    handleWebSocketMessage diskPlain none none
        (Inbound.parsed { type := none, filePath := none,
                          action := some "sendDeviceName", deviceName := some "" }) = [] :=
  c10_empty_device_dropped diskPlain none none
    { type := none, filePath := none, action := some "sendDeviceName", deviceName := some "" }
    rfl rfl (Or.inr rfl)

end IdsWebTool
